import Mathlib

/-
Verification of the anomaly-detection engine of the stock_market_anomaly_detector
repository.

Embedding conventions:
* C++ double values are modelled as exact rationals; every arithmetic step of
  the source is reproduced literally over the rationals.
* The single square root of the engine (the stddev of RollingStats, used only
  in the comparison abs (x - mean) > threshold * stddev) is eliminated by an
  exact case split: for 0 <= t the comparison is equivalent to
  t * t * variance < (x - mean) ^ 2, and for t < 0 the right hand side is
  negative, so the comparison holds unless both sides vanish.  See
  exceedsThreshold below.
* The C++ std sort guarantees only that its output is a permutation of the
  input ordered by the supplied comparator; where a result depends on the
  order of equal keys (the deviation ranking), the sort is modelled
  relationally by IsDeviationRanking.  The executable detector uses an
  insertion sort with the same comparator, which is one behaviour the
  standard allows.
* Machine integers are modelled as Int (the window size of RollingStats is an
  int in the source) and sizes as Nat.
-/

attribute [local semireducible] Rat.mul Rat.add Rat.sub Rat.inv

namespace StockAnomaly

/-- Rolling window tracker from src/utils/rolling_stats.cpp: a deque of the
most recent values together with the configured window size (an int in the
source; the constructor performs no validation). -/
structure RollingStats where
  window_size : ℤ
  window : List ℚ

/-- RollingStats constructor: stores the window size and starts with an empty
window, performing no validation of the argument. -/
def RollingStats.init (window_size : ℤ) : RollingStats :=
  { window_size := window_size, window := [] }

/-- RollingStats add: if the window already holds window_size values the
oldest is popped from the front, then the new value is pushed at the back. -/
def RollingStats.add (st : RollingStats) (value : ℚ) : RollingStats :=
  { st with
    window :=
      (if (st.window.length : ℤ) = st.window_size then st.window.tail else st.window) ++ [value] }

/-- RollingStats mean: 0 on an empty window, otherwise the sum of the window
divided by its size. -/
def RollingStats.mean (st : RollingStats) : ℚ :=
  if st.window = [] then 0 else st.window.sum / (st.window.length : ℚ)

/-- Square of the RollingStats stddev: the source accumulates
(v - mean) * (v - mean) over the window and returns the square root of the
accumulated sum divided by the window size; the square root is left implicit
here and handled exactly by exceedsThreshold. -/
def RollingStats.variance (st : RollingStats) : ℚ :=
  if st.window = [] then 0
  else ((st.window.map (fun v => (v - st.mean) * (v - st.mean))).sum) / (st.window.length : ℚ)

/-- RollingStats ready: the window holds exactly window_size values (the
source compares a size_t against the int member). -/
def RollingStats.ready (st : RollingStats) : Prop :=
  (st.window.length : ℤ) = st.window_size

instance (st : RollingStats) : Decidable st.ready :=
  inferInstanceAs (Decidable ((st.window.length : ℤ) = st.window_size))

/-- Exact decision of the source comparison abs (x - m) > t * sqrt v for a
nonnegative variance v: for 0 <= t both sides are nonnegative and squaring is
strictly monotone, giving t * t * v < (x - m) * (x - m); for t < 0 the right
hand side is negative whenever v is positive, and equals zero when v = 0, so
the comparison holds unless v = 0 and x = m. -/
def exceedsThreshold (t x m v : ℚ) : Prop :=
  if 0 ≤ t then t * t * v < (x - m) * (x - m) else 0 < v ∨ x ≠ m

instance (t x m v : ℚ) : Decidable (exceedsThreshold t x m v) :=
  inferInstanceAs
    (Decidable (if 0 ≤ t then t * t * v < (x - m) * (x - m) else 0 < v ∨ x ≠ m))

/-- Loop body of detectSlidingAnomalies from src/algs/anomoly_sliding_window.cpp:
each value is added to the rolling window first, and when the window is ready
the flag of the current position is 1 exactly when the value deviates from the
window mean by more than threshold times the window stddev. -/
def slidingFlags (threshold : ℚ) : List ℚ → RollingStats → List ℕ
  | [], _ => []
  | x :: xs, st =>
    let st2 := st.add x
    (if st2.ready ∧ exceedsThreshold threshold x st2.mean st2.variance then 1 else 0) ::
      slidingFlags threshold xs st2

/-- detectSlidingAnomalies from src/algs/anomoly_sliding_window.cpp: a flag
vector with one entry per series position, 1 at the flagged positions and 0
elsewhere. -/
def detectSlidingAnomalies (series : List ℚ) (window_size : ℤ) (threshold : ℚ) : List ℕ :=
  slidingFlags threshold series (RollingStats.init window_size)

/-- Loop body of detectAnomaliesSlidingWindow (the header variant of the
sliding detector): identical traversal and test, but the flagged positions are
collected as a list of indices instead of a flag vector. -/
def slidingIndices (threshold : ℚ) : List ℚ → RollingStats → ℕ → List ℕ
  | [], _, _ => []
  | x :: xs, st, i =>
    let st2 := st.add x
    if st2.ready ∧ exceedsThreshold threshold x st2.mean st2.variance then
      i :: slidingIndices threshold xs st2 (i + 1)
    else slidingIndices threshold xs st2 (i + 1)

/-- detectAnomaliesSlidingWindow: the index-list variant of the sliding
detector. -/
def detectAnomaliesSlidingWindow (series : List ℚ) (window_size : ℤ) (threshold : ℚ) : List ℕ :=
  slidingIndices threshold series (RollingStats.init window_size) 0

/-- Number of flagged positions of a flag vector, as accumulated by the driver
loop that sums the flag entries. -/
def flaggedCount (flags : List ℕ) : ℕ :=
  flags.sum

/-- Median step of detectAnomaliesHeap in src/algs/anomaly_heap.cpp: the data
is copied and sorted ascending; an even length takes the average of the two
central values and an odd length takes the central value. -/
def seriesMedian (data : List ℚ) : ℚ :=
  let sorted_data := data.insertionSort (· ≤ ·)
  let n := data.length
  if n % 2 = 0 then (sorted_data.getD (n / 2 - 1) 0 + sorted_data.getD (n / 2) 0) / 2
  else sorted_data.getD (n / 2) 0

/-- MAD step of detectAnomaliesHeap: the absolute deviations from the median
are sorted ascending and their median is taken with the same even/odd rule. -/
def seriesMad (data : List ℚ) : ℚ :=
  let median := seriesMedian data
  let deviations := (data.map (fun value => |value - median|)).insertionSort (· ≤ ·)
  let n := data.length
  if n % 2 = 0 then (deviations.getD (n / 2 - 1) 0 + deviations.getD (n / 2) 0) / 2
  else deviations.getD (n / 2) 0

/-- Robust standard deviation of detectAnomaliesHeap: MAD times 1.4826,
replaced by the constant 1e-10 when smaller than it. -/
def robustStd (data : List ℚ) : ℚ :=
  let r := seriesMad data * (14826 / 10000)
  if r < 1 / 10 ^ 10 then 1 / 10 ^ 10 else r

/-- Adaptive threshold of detectAnomaliesHeap: a requested threshold below 2
is raised to max threshold 2, otherwise kept. -/
def adaptiveThreshold (threshold : ℚ) : ℚ :=
  if threshold < 2 then max threshold 2 else threshold

/-- Deviation pairs of detectAnomaliesHeap before sorting: one pair
(abs (value - median) / robust_std, index) per series position, in index
order. -/
def deviationPairs (data : List ℚ) : List (ℚ × ℕ) :=
  data.enum.map (fun p => (|p.2 - seriesMedian data| / robustStd data, p.1))

/-- Executable determinisation of the std sort call on the deviation pairs:
the comparator of the source orders by deviation descending and says nothing
about equal deviations. -/
def sortPairsDesc (l : List (ℚ × ℕ)) : List (ℚ × ℕ) :=
  l.insertionSort (fun a b => b.1 ≤ a.1)

/-- Hard cap of detectAnomaliesHeap: at most five percent of the series length
may be flagged; the cast to size_t truncates, so this is the floor. -/
def maxAnomalyCount (n : ℕ) : ℕ :=
  n * 5 / 100

/-- Selection loop of detectAnomaliesHeap over the sorted deviation pairs: a
pair whose deviation exceeds the adaptive threshold while the selected count
is below the cap is kept only when the deviation also exceeds the adaptive
threshold times 1.2; as soon as the outer condition fails the loop breaks. -/
def selectAnomalies (adaptive : ℚ) (maxCount : ℕ) : List (ℚ × ℕ) → ℕ → List ℕ
  | [], _ => []
  | p :: rest, selected =>
    if adaptive < p.1 ∧ selected < maxCount then
      if adaptive * (12 / 10) < p.1 then
        p.2 :: selectAnomalies adaptive maxCount rest (selected + 1)
      else selectAnomalies adaptive maxCount rest selected
    else []

/-- detectAnomaliesHeap from src/algs/anomaly_heap.cpp: empty data yields an
empty result; otherwise the deviation pairs are sorted descending, the
selection loop is run with the adaptive threshold and the five percent cap,
and the selected indices are returned sorted ascending. -/
def detectAnomaliesHeap (data : List ℚ) (threshold : ℚ) : List ℕ :=
  if data = [] then []
  else
    (selectAnomalies (adaptiveThreshold threshold) (maxAnomalyCount data.length)
        (sortPairsDesc (deviationPairs data)) 0).insertionSort (· ≤ ·)

/-- Relational model of the std sort call on the deviation pairs: any
permutation of the pairs that is pairwise ordered by deviation descending is a
possible ranking, since the comparator of the source compares deviations only
and the standard leaves the order of equivalent elements open. -/
def IsDeviationRanking (data : List ℚ) (l : List (ℚ × ℕ)) : Prop :=
  l.Perm (deviationPairs data) ∧ l.Sorted (fun a b => b.1 ≤ a.1)

instance (data : List ℚ) (l : List (ℚ × ℕ)) : Decidable (IsDeviationRanking data l) :=
  inferInstanceAs
    (Decidable (l.Perm (deviationPairs data) ∧ l.Sorted (fun a b : ℚ × ℕ => b.1 ≤ a.1)))

/-- Property claimed of the ranking by the specification: pairs with equal
deviations appear in ascending index order. -/
def RankingTiesAscending (l : List (ℚ × ℕ)) : Prop :=
  l.Pairwise (fun a b => a.1 = b.1 → a.2 ≤ b.2)

instance (l : List (ℚ × ℕ)) : Decidable (RankingTiesAscending l) :=
  inferInstanceAs (Decidable (l.Pairwise (fun a b : ℚ × ℕ => a.1 = b.1 → a.2 ≤ b.2)))

/-- Candidate threshold list of detectAnomaliesHeapGranular: 3.5 down to 2.0
in steps of 0.1, then 2.0 down to 1.5 in steps of 0.05 (the two loops of the
source, with the loop counters made explicit). -/
def granularThresholds : List ℚ :=
  (List.range 16).map (fun k => 35 / 10 - (k : ℚ) * (1 / 10)) ++
    (List.range 11).map (fun k => 2 - (k : ℚ) * (5 / 100))

/-- Anomaly rate of one candidate threshold: the size of the result of
detectAnomaliesHeap divided by the data size. -/
def candidateRate (data : List ℚ) (t : ℚ) : ℚ :=
  ((detectAnomaliesHeap data t).length : ℚ) / (data.length : ℚ)

/-- Acceptance test of the granular search: the rate of the candidate lies
within the band from 0.8 times the target to 1.2 times the target. -/
def acceptedCandidate (data : List ℚ) (target t : ℚ) : Prop :=
  target * (8 / 10) ≤ candidateRate data t ∧ candidateRate data t ≤ target * (12 / 10)

instance (data : List ℚ) (target t : ℚ) : Decidable (acceptedCandidate data target t) :=
  inferInstanceAs
    (Decidable
      (target * (8 / 10) ≤ candidateRate data t ∧ candidateRate data t ≤ target * (12 / 10)))

/-- Distance of the rate of one candidate from the target rate. -/
def candDiff (data : List ℚ) (target t : ℚ) : ℚ :=
  |candidateRate data t - target|

/-- Comparison of a new distance against the best distance seen so far; the
source initialises the best distance to the largest double, modelled by the
none case which every finite distance beats. -/
def betterDiff (d : ℚ) : Option ℚ → Prop
  | none => True
  | some d0 => d < d0

instance (d : ℚ) : (o : Option ℚ) → Decidable (betterDiff d o)
  | none => isTrue trivial
  | some d0 => inferInstanceAs (Decidable (d < d0))

/-- Best-seen update of the granular search: when the distance of the current
candidate beats the best distance seen so far, the best distance and the best
label set are replaced by those of the current candidate. -/
def stepBest (data : List ℚ) (target : ℚ) (best : Option ℚ × List ℕ) (t : ℚ) :
    Option ℚ × List ℕ :=
  if betterDiff (candDiff data target t) best.1 then
    (some (candDiff data target t), detectAnomaliesHeap data t)
  else best

/-- Search loop of detectAnomaliesHeapGranular: each candidate first updates
the best-seen state, then the acceptance test on the current rate either
breaks the loop returning the best label set or moves to the next candidate;
an exhausted list also returns the best label set. -/
def granularSearch (data : List ℚ) (target : ℚ) : List ℚ → Option ℚ × List ℕ → List ℕ
  | [], best => best.2
  | t :: rest, best =>
    let best2 := stepBest data target best t
    if acceptedCandidate data target t then best2.2
    else granularSearch data target rest best2

/-- detectAnomaliesHeapGranular from src/algs/anomaly_heap.cpp: empty data
yields an empty result, otherwise the candidate list is searched starting from
an empty best label set and an unset best distance. -/
def detectAnomaliesHeapGranular (data : List ℚ) (target_percentage : ℚ) : List ℕ :=
  if data = [] then []
  else granularSearch data target_percentage granularThresholds (none, [])

/-- Adding a value never changes the configured window size. -/
theorem RollingStats.window_size_add (st : RollingStats) (x : ℚ) :
    (st.add x).window_size = st.window_size :=
  rfl

/-- Adding a value grows the window by at most one entry. -/
theorem RollingStats.length_add_le (st : RollingStats) (x : ℚ) :
    (st.add x).window.length ≤ st.window.length + 1 := by
  unfold RollingStats.add
  split_ifs <;> simp [List.length_tail]

/-- Positions whose window cannot yet have reached the configured size carry
flag 0: the window grows by at most one entry per step, so at relative
position i it holds at most length + i + 1 values. -/
theorem slidingFlags_getD_eq_zero (t : ℚ) (xs : List ℚ) :
    ∀ (st : RollingStats) (i : ℕ),
      (st.window.length : ℤ) + (i : ℤ) + 1 < st.window_size →
      (slidingFlags t xs st).getD i 0 = 0 := by
  induction xs with
  | nil => intro st i _; simp [slidingFlags]
  | cons x xs ih =>
    intro st i h
    have hlen := RollingStats.length_add_le st x
    have hws := RollingStats.window_size_add st x
    cases i with
    | zero =>
      simp only [slidingFlags, List.getD_cons_zero]
      rw [if_neg]
      intro hc
      have hr : ((st.add x).window.length : ℤ) = (st.add x).window_size := hc.1
      rw [hws] at hr
      omega
    | succ i =>
      simp only [slidingFlags, List.getD_cons_succ]
      apply ih (st.add x) i
      rw [hws]
      omega

/-- C5: for every input series, every window size W with W at least 1 and
every threshold, no index below W - 1 is ever flagged by the sliding-window
detector (the flag vector is 0 there, including out-of-range reads of the
default 0). -/
theorem sliding_first_window_indices_unflagged (series : List ℚ) (window_size : ℤ)
    (threshold : ℚ) (i : ℕ) (hW : 1 ≤ window_size) (hi : (i : ℤ) < window_size - 1) :
    (detectSlidingAnomalies series window_size threshold).getD i 0 = 0 := by
  apply slidingFlags_getD_eq_zero
  simp only [RollingStats.init, List.length_nil, Nat.cast_zero]
  omega

/-- Witness for C5 at series [1, 2, 3, 4], window size 3, threshold 2,
index 1. -/
theorem sliding_first_window_indices_unflagged_witness :
    (1 : ℤ) ≤ 3 ∧ ((1 : ℕ) : ℤ) < 3 - 1 ∧
      (detectSlidingAnomalies [1, 2, 3, 4] 3 2).getD 1 0 = 0 :=
  ⟨by decide, by decide,
    sliding_first_window_indices_unflagged [1, 2, 3, 4] 3 2 1 (by decide) (by decide)⟩

/-- A window size below zero can never equal the window length, so no
position is ever ready and every flag is 0. -/
theorem slidingFlags_all_zero_of_neg (t : ℚ) (xs : List ℚ) :
    ∀ st : RollingStats, st.window_size < 0 →
      slidingFlags t xs st = List.replicate xs.length 0 := by
  induction xs with
  | nil => intro st _; simp [slidingFlags]
  | cons x xs ih =>
    intro st h
    simp only [slidingFlags, List.length_cons, List.replicate_succ]
    refine congrArg₂ (· :: ·) ?_ (ih (st.add x) h)
    rw [if_neg]
    intro hc
    have hr : ((st.add x).window.length : ℤ) = (st.add x).window_size := hc.1
    rw [RollingStats.window_size_add] at hr
    omega

/-- C4 counterexample: invoking the sliding detector with window_size = -1
(below the claimed minimum of 1) and the calibrator with target_rate = 2
(outside the open interval from 0 to 1) both run to completion and return an
ordinary result; the source contains no validation and no ConfigurationError
of any kind, so nothing fails fast. -/
theorem no_configuration_error_raised :
    detectSlidingAnomalies [5, 7] (-1) 2 = [0, 0] ∧
      detectAnomaliesHeapGranular [0, 0, 100] 2 = [] :=
  ⟨by decide, by decide⟩

/-- C4 amended: the engine performs no configuration validation; an invalid
window size is accepted silently, and the sliding detector run with any
negative window size returns the all-zero flag vector instead of failing
before computation (threshold and target-rate values are likewise used
unchecked). -/
theorem sliding_invalid_window_size_silent (series : List ℚ) (window_size : ℤ)
    (threshold : ℚ) (h : window_size < 0) :
    detectSlidingAnomalies series window_size threshold = List.replicate series.length 0 :=
  slidingFlags_all_zero_of_neg threshold series (RollingStats.init window_size) h

/-- Witness for the amended C4 at series [3, 4], window size -1,
threshold 2. -/
theorem sliding_invalid_window_size_silent_witness :
    (-1 : ℤ) < 0 ∧ detectSlidingAnomalies [3, 4] (-1) 2 = List.replicate 2 0 :=
  ⟨by decide, sliding_invalid_window_size_silent [3, 4] (-1) 2 (by decide)⟩

/-- Window variance is a mean of squares, hence nonnegative. -/
theorem RollingStats.variance_nonneg (st : RollingStats) : 0 ≤ st.variance := by
  unfold RollingStats.variance
  split_ifs
  · exact le_refl 0
  · apply div_nonneg
    · apply List.sum_nonneg
      intro y hy
      rw [List.mem_map] at hy
      obtain ⟨v, _, rfl⟩ := hy
      exact mul_self_nonneg _
    · exact Nat.cast_nonneg _

/-- Raising the threshold can only lose the deviation test: the exact
decision of abs (x - m) > t * sqrt v is antitone in t for nonnegative v. -/
theorem exceedsThreshold_mono {t1 t2 x m v : ℚ} (h12 : t1 ≤ t2) (hv : 0 ≤ v)
    (h : exceedsThreshold t2 x m v) : exceedsThreshold t1 x m v := by
  unfold exceedsThreshold at h ⊢
  by_cases h1 : 0 ≤ t1 <;> by_cases h2 : 0 ≤ t2
  · rw [if_pos h1]
    rw [if_pos h2] at h
    exact lt_of_le_of_lt
      (mul_le_mul_of_nonneg_right (mul_self_le_mul_self h1 h12) hv) h
  · exact absurd (le_trans h1 h12) h2
  · rw [if_neg h1]
    rw [if_pos h2] at h
    by_contra hc
    push_neg at hc
    obtain ⟨hv2, hxm⟩ := hc
    rw [hxm, le_antisymm hv2 hv] at h
    simp at h
  · rw [if_neg h1]
    rw [if_neg h2] at h
    exact h

/-- Pointwise, the flag vector for the higher threshold is dominated by the
one for the lower threshold, so its sum is no larger. -/
theorem slidingFlags_sum_le {t1 t2 : ℚ} (h12 : t1 ≤ t2) (xs : List ℚ) :
    ∀ st : RollingStats, (slidingFlags t2 xs st).sum ≤ (slidingFlags t1 xs st).sum := by
  induction xs with
  | nil => intro st; simp [slidingFlags]
  | cons x xs ih =>
    intro st
    simp only [slidingFlags, List.sum_cons]
    apply Nat.add_le_add _ (ih (st.add x))
    by_cases hc : (st.add x).ready ∧
        exceedsThreshold t2 x (st.add x).mean (st.add x).variance
    · rw [if_pos hc,
        if_pos ⟨hc.1, exceedsThreshold_mono h12 ((st.add x).variance_nonneg) hc.2⟩]
    · rw [if_neg hc]
      exact Nat.zero_le _

/-- C6: for a fixed series and window size, the flagged count of the
sliding-window detector is antitone in the threshold: whenever t1 is at most
t2, the count at t2 is at most the count at t1. -/
theorem sliding_count_antitone (series : List ℚ) (window_size : ℤ) (t1 t2 : ℚ)
    (h : t1 ≤ t2) :
    flaggedCount (detectSlidingAnomalies series window_size t2) ≤
      flaggedCount (detectSlidingAnomalies series window_size t1) :=
  slidingFlags_sum_le h series (RollingStats.init window_size)

/-- Witness for C6 at series [0, 0, 9], window size 2, thresholds 1 and 2. -/
theorem sliding_count_antitone_witness :
    (1 : ℚ) ≤ 2 ∧
      flaggedCount (detectSlidingAnomalies [0, 0, 9] 2 2) ≤
        flaggedCount (detectSlidingAnomalies [0, 0, 9] 2 1) :=
  ⟨by decide, sliding_count_antitone [0, 0, 9] 2 1 2 (by decide)⟩

/-- Every index collected by the index-list variant is at least the running
counter it was started with. -/
theorem le_of_mem_slidingIndices (t : ℚ) (xs : List ℚ) :
    ∀ (st : RollingStats) (j m : ℕ), m ∈ slidingIndices t xs st j → j ≤ m := by
  induction xs with
  | nil => intro st j m hm; simp [slidingIndices] at hm
  | cons x xs ih =>
    intro st j m hm
    simp only [slidingIndices] at hm
    split_ifs at hm with hc
    · rcases List.mem_cons.mp hm with rfl | hm2
      · exact le_refl m
      · exact le_trans (by omega) (ih (st.add x) (j + 1) m hm2)
    · exact le_trans (by omega) (ih (st.add x) (j + 1) m hm)

/-- The flag vector and the index list agree position by position, for any
value of the running index counter. -/
theorem slidingFlags_getD_iff_mem (t : ℚ) (xs : List ℚ) :
    ∀ (st : RollingStats) (j i : ℕ),
      ((slidingFlags t xs st).getD i 0 = 1 ↔ j + i ∈ slidingIndices t xs st j) := by
  induction xs with
  | nil => intro st j i; simp [slidingFlags, slidingIndices]
  | cons x xs ih =>
    intro st j i
    by_cases hc : (st.add x).ready ∧
        exceedsThreshold t x (st.add x).mean (st.add x).variance
    · cases i with
      | zero =>
        simp only [slidingFlags, slidingIndices, List.getD_cons_zero, Nat.add_zero]
        rw [if_pos hc, if_pos hc]
        simp
      | succ i =>
        simp only [slidingFlags, slidingIndices, List.getD_cons_succ]
        rw [if_pos hc]
        rw [ih (st.add x) (j + 1) i]
        have hne : j + (i + 1) ≠ j := by omega
        have harith : j + 1 + i = j + (i + 1) := by omega
        rw [harith]
        simp [List.mem_cons, hne]
    · cases i with
      | zero =>
        simp only [slidingFlags, slidingIndices, List.getD_cons_zero, Nat.add_zero]
        rw [if_neg hc, if_neg hc]
        constructor
        · intro h01
          exact absurd h01 (by simp)
        · intro hm
          have := le_of_mem_slidingIndices t xs (st.add x) (j + 1) j hm
          omega
      | succ i =>
        simp only [slidingFlags, slidingIndices, List.getD_cons_succ]
        rw [if_neg hc]
        rw [ih (st.add x) (j + 1) i]
        have harith : j + 1 + i = j + (i + 1) := by omega
        rw [harith]

/-- C10: the two sliding detector variants are equivalent: a position carries
flag 1 in the flag vector of detectSlidingAnomalies exactly when it appears in
the index list of detectAnomaliesSlidingWindow (positions beyond the series
read the default 0 and appear in neither). -/
theorem sliding_flags_iff_indices (series : List ℚ) (window_size : ℤ) (threshold : ℚ)
    (i : ℕ) :
    (detectSlidingAnomalies series window_size threshold).getD i 0 = 1 ↔
      i ∈ detectAnomaliesSlidingWindow series window_size threshold := by
  have h := slidingFlags_getD_iff_mem threshold series (RollingStats.init window_size) 0 i
  simpa using h

/-- C1 counterexample: on the series of ten zeros followed by 10, with window
size 3 and threshold 2, the sliding-window detector does not flag the final
index (position 10 carries flag 0, not 1): the window contains the tested
point itself, and in a window of 3 values no point can deviate from the
window mean by more than sqrt 2 window stddevs. -/
theorem scenarioA_final_index_not_flagged :
    (detectSlidingAnomalies [0, 0, 0, 0, 0, 0, 0, 0, 0, 0, 10] 3 2).getD 10 0 ≠ 1 := by
  decide

/-- C1 amended: on the series of ten zeros followed by 10, with window size 3
and threshold 2, the sliding-window detector flags no index at all: the flag
vector is identically zero. -/
theorem scenarioA_flags_nothing :
    detectSlidingAnomalies [0, 0, 0, 0, 0, 0, 0, 0, 0, 0, 10] 3 2 = List.replicate 11 0 := by
  decide

/-- The selection loop keeps at most maxCount minus the running count of
already selected pairs. -/
theorem selectAnomalies_length_le (a : ℚ) (maxCount : ℕ) (l : List (ℚ × ℕ)) :
    ∀ selected : ℕ, (selectAnomalies a maxCount l selected).length ≤ maxCount - selected := by
  induction l with
  | nil => intro selected; simp [selectAnomalies]
  | cons p rest ih =>
    intro selected
    simp only [selectAnomalies]
    split_ifs with h1 h2
    · have hrec := ih (selected + 1)
      have hsel : selected < maxCount := h1.2
      simp only [List.length_cons]
      omega
    · exact le_trans (ih selected) (le_refl _)
    · simp

/-- C2: for every input series and every threshold, the robust (heap)
detector returns at most floor of five percent of the series length many
indices (the cap the source computes as size times 0.05 truncated). -/
theorem heap_count_within_cap (data : List ℚ) (threshold : ℚ) :
    (detectAnomaliesHeap data threshold).length ≤ data.length * 5 / 100 := by
  unfold detectAnomaliesHeap
  split_ifs with h
  · simp
  · rw [List.length_insertionSort]
    have hlen := selectAnomalies_length_le (adaptiveThreshold threshold)
      (maxAnomalyCount data.length) (sortPairsDesc (deviationPairs data)) 0
    have hmax : maxAnomalyCount data.length = data.length * 5 / 100 := rfl
    omega

/-- With a cap of zero the selection loop selects nothing: the outer guard
requires the running count to be below the cap. -/
theorem selectAnomalies_cap_zero (a : ℚ) (l : List (ℚ × ℕ)) (selected : ℕ) :
    selectAnomalies a 0 l selected = [] := by
  cases l with
  | nil => rfl
  | cons p rest => simp [selectAnomalies]

/-- C9: for every non-empty series of fewer than 20 points and every
threshold, the robust (heap) detector returns the empty set, because the
five percent cap truncates to zero and no point can be selected. -/
theorem heap_short_series_empty (data : List ℚ) (threshold : ℚ)
    (hne : data ≠ []) (hlen : data.length < 20) :
    detectAnomaliesHeap data threshold = [] := by
  unfold detectAnomaliesHeap
  rw [if_neg hne]
  have hmax : maxAnomalyCount data.length = 0 := by
    unfold maxAnomalyCount
    omega
  rw [hmax, selectAnomalies_cap_zero]
  rfl

/-- Witness for C9 at series [3, 100, 5] (3 points) and threshold 2. -/
theorem heap_short_series_empty_witness :
    ([3, 100, 5] ≠ ([] : List ℚ)) ∧ ([(3 : ℚ), 100, 5].length < 20) ∧
      detectAnomaliesHeap [3, 100, 5] 2 = [] :=
  ⟨by decide, by decide, heap_short_series_empty [3, 100, 5] 2 (by decide) (by decide)⟩

/-- List indexing of a constant list below its length gives the constant. -/
theorem getD_replicate_of_lt (c d : ℚ) :
    ∀ (k i : ℕ), i < k → (List.replicate k c).getD i d = c := by
  intro k
  induction k with
  | zero => intro i hi; omega
  | succ k ih =>
    intro i hi
    rw [List.replicate_succ]
    cases i with
    | zero => exact List.getD_cons_zero
    | succ i =>
      rw [List.getD_cons_succ]
      exact ih i (by omega)

/-- Sorting a constant list returns it unchanged. -/
theorem insertionSort_replicate (k : ℕ) (c : ℚ) :
    (List.replicate k c).insertionSort (· ≤ ·) = List.replicate k c := by
  rw [List.eq_replicate_iff]
  exact ⟨by rw [List.length_insertionSort, List.length_replicate],
    fun b hb => List.eq_of_mem_replicate ((List.mem_insertionSort _).mp hb)⟩

/-- The median of a non-empty constant series is the constant. -/
theorem seriesMedian_replicate (k : ℕ) (c : ℚ) :
    seriesMedian (List.replicate (k + 1) c) = c := by
  simp only [seriesMedian, insertionSort_replicate, List.length_replicate]
  split_ifs
  · rw [getD_replicate_of_lt c 0 (k + 1) ((k + 1) / 2 - 1) (by omega),
      getD_replicate_of_lt c 0 (k + 1) ((k + 1) / 2) (by omega)]
    ring
  · exact getD_replicate_of_lt c 0 (k + 1) ((k + 1) / 2) (by omega)

/-- On a constant series every deviation pair carries deviation zero. -/
theorem deviationPairs_replicate_fst (k : ℕ) (c : ℚ) :
    ∀ p ∈ deviationPairs (List.replicate (k + 1) c), p.1 = 0 := by
  intro p hp
  unfold deviationPairs at hp
  rw [List.mem_map] at hp
  obtain ⟨q, hq, rfl⟩ := hp
  have hq2 : q.2 = c := by
    have hmem : q.2 ∈ (List.replicate (k + 1) c).enum.map Prod.snd :=
      List.mem_map_of_mem Prod.snd hq
    rw [List.enum_map_snd] at hmem
    exact List.eq_of_mem_replicate hmem
  simp [hq2, seriesMedian_replicate]

/-- The adaptive threshold never drops below 2. -/
theorem two_le_adaptiveThreshold (t : ℚ) : 2 ≤ adaptiveThreshold t := by
  unfold adaptiveThreshold
  split_ifs with h
  · exact le_max_right t 2
  · linarith

/-- C8: for every constant series of any length and every threshold, the
robust (heap) detector returns the empty set; the zero MAD collapses
robust_std to the 1e-10 floor instead of raising an error, every normalized
deviation is zero, and the first pair already fails the threshold test. -/
theorem heap_constant_series_empty (n : ℕ) (c threshold : ℚ) :
    detectAnomaliesHeap (List.replicate n c) threshold = [] := by
  cases n with
  | zero => simp [detectAnomaliesHeap]
  | succ k =>
    unfold detectAnomaliesHeap
    rw [if_neg (by simp : ¬(List.replicate (k + 1) c = []))]
    suffices hsel : selectAnomalies (adaptiveThreshold threshold)
        (maxAnomalyCount (List.replicate (k + 1) c).length)
        (sortPairsDesc (deviationPairs (List.replicate (k + 1) c))) 0 = [] by
      rw [hsel]
      rfl
    cases hps : sortPairsDesc (deviationPairs (List.replicate (k + 1) c)) with
    | nil => rfl
    | cons p rest =>
      have hp1 : p.1 = 0 := by
        apply deviationPairs_replicate_fst k c
        have hmem : p ∈ sortPairsDesc (deviationPairs (List.replicate (k + 1) c)) := by
          rw [hps]
          exact List.mem_cons_self p rest
        unfold sortPairsDesc at hmem
        exact (List.mem_insertionSort _).mp hmem
      simp only [selectAnomalies]
      rw [if_neg]
      intro hcond
      rw [hp1] at hcond
      have h2 := two_le_adaptiveThreshold threshold
      have := hcond.1
      linarith

/-- C7 counterexample: on the series [1, 1] (two equal points, both with
normalized deviation 0) the list [(0, 1), (0, 0)] is a valid outcome of the
sort the source performs (a permutation of the deviation pairs that is
ordered by deviation descending, the only property the comparator
guarantees), yet its equal-deviation pairs are in descending index order; the
claimed index-ascending tie break is therefore not forced by the code, and
the ranking is not uniquely determined. -/
theorem deviation_ranking_ties_not_determined :
    IsDeviationRanking [1, 1] [((0 : ℚ), (1 : ℕ)), (0, 0)] ∧
      ¬ RankingTiesAscending [((0 : ℚ), (1 : ℕ)), (0, 0)] := by
  decide

/-- C7 amended: every ranking the sort of the source can produce contains one
pair per series point (its index components are a permutation of the range of
the series length, so its length matches the series length) and is sorted by
deviation descending; the order of pairs with equal deviations, and with it
the determinism of the ranking, is not fixed by the code. -/
theorem deviation_ranking_shape (data : List ℚ) (l : List (ℚ × ℕ))
    (h : IsDeviationRanking data l) :
    l.length = data.length ∧ (l.map Prod.snd).Perm (List.range data.length) ∧
      l.Sorted (fun a b : ℚ × ℕ => b.1 ≤ a.1) := by
  obtain ⟨hperm, hsort⟩ := h
  refine ⟨?_, ?_, hsort⟩
  · rw [hperm.length_eq]
    unfold deviationPairs
    rw [List.length_map, List.enum_length]
  · have h2 := hperm.map Prod.snd
    have h3 : (deviationPairs data).map Prod.snd = List.range data.length := by
      unfold deviationPairs
      rw [List.map_map]
      have h4 : (Prod.snd ∘ fun p : ℕ × ℚ =>
          (|p.2 - seriesMedian data| / robustStd data, p.1)) = Prod.fst := rfl
      rw [h4, List.enum_map_fst]
    rwa [h3] at h2

/-- Witness for the amended C7 at the series [1, 1] and the ranking
[(0, 0), (0, 1)]. -/
theorem deviation_ranking_shape_witness :
    IsDeviationRanking [1, 1] [((0 : ℚ), (0 : ℕ)), (0, 1)] ∧
      ([((0 : ℚ), (0 : ℕ)), (0, 1)].length = ([1, 1] : List ℚ).length ∧
        ([((0 : ℚ), (0 : ℕ)), (0, 1)].map Prod.snd).Perm
          (List.range ([1, 1] : List ℚ).length) ∧
        List.Sorted (fun a b : ℚ × ℕ => b.1 ≤ a.1) [((0 : ℚ), (0 : ℕ)), (0, 1)]) :=
  ⟨by decide, deviation_ranking_shape [1, 1] [((0 : ℚ), (0 : ℕ)), (0, 1)] (by decide)⟩

/-- An accepted candidate has rate distance at most 0.2 times the target. -/
theorem accepted_diff_le {data : List ℚ} {target t : ℚ}
    (h : acceptedCandidate data target t) :
    candDiff data target t ≤ target * (2 / 10) := by
  obtain ⟨h1, h2⟩ := h
  unfold candDiff
  rw [abs_le]
  constructor <;> linarith

/-- A rejected candidate has rate distance above 0.2 times the target. -/
theorem not_accepted_diff_gt {data : List ℚ} {target t : ℚ}
    (h : ¬ acceptedCandidate data target t) :
    target * (2 / 10) < candDiff data target t := by
  unfold acceptedCandidate at h
  unfold candDiff
  rcases not_and_or.mp h with h1 | h2
  · rw [not_le] at h1
    calc target * (2 / 10) < target - candidateRate data t := by linarith
    _ ≤ |candidateRate data t - target| := by
        rw [← neg_sub]
        exact neg_le_abs _
  · rw [not_le] at h2
    calc target * (2 / 10) < candidateRate data t - target := by linarith
    _ ≤ |candidateRate data t - target| := le_abs_self _

/-- When the candidate list contains an accepted candidate, the search stops
at the first one and returns its label set: every earlier candidate was
rejected, so its distance exceeds 0.2 times the target, while the accepted
distance does not, hence the best-seen update adopts the accepted candidate
just before the loop breaks.  The hypothesis on the running best distance
records that it came from rejected candidates only. -/
theorem granularSearch_find_some (data : List ℚ) (target : ℚ) (l : List ℚ) :
    ∀ (best : Option ℚ × List ℕ) (t0 : ℚ),
      l.find? (fun t => decide (acceptedCandidate data target t)) = some t0 →
      (∀ d, best.1 = some d → target * (2 / 10) < d) →
      granularSearch data target l best = detectAnomaliesHeap data t0 := by
  induction l with
  | nil => intro best t0 hf _; simp at hf
  | cons t rest ih =>
    intro best t0 hf hinv
    by_cases hacc : acceptedCandidate data target t
    · have ht : t0 = t := by
        rw [List.find?_cons_of_pos rest (by simpa using hacc)] at hf
        exact (Option.some_inj.mp hf).symm
      subst ht
      simp only [granularSearch]
      rw [if_pos hacc]
      have hbd : betterDiff (candDiff data target t0) best.1 := by
        cases hb : best.1 with
        | none => simp [betterDiff]
        | some d =>
          simp only [betterDiff]
          exact lt_of_le_of_lt (accepted_diff_le hacc) (hinv d hb)
      unfold stepBest
      rw [if_pos hbd]
    · have hf2 : rest.find? (fun t2 => decide (acceptedCandidate data target t2)) = some t0 := by
        rwa [List.find?_cons_of_neg rest (by simpa using hacc)] at hf
      simp only [granularSearch]
      rw [if_neg hacc]
      apply ih (stepBest data target best t) t0 hf2
      intro d hd
      unfold stepBest at hd
      by_cases hbd : betterDiff (candDiff data target t) best.1
      · rw [if_pos hbd] at hd
        obtain rfl : candDiff data target t = d := Option.some_inj.mp hd
        exact not_accepted_diff_gt hacc
      · rw [if_neg hbd] at hd
        exact hinv d hd

/-- When no candidate is accepted the search never breaks, so it is the fold
of the best-seen update over the whole candidate list. -/
theorem granularSearch_find_none (data : List ℚ) (target : ℚ) (l : List ℚ) :
    ∀ best : Option ℚ × List ℕ,
      l.find? (fun t => decide (acceptedCandidate data target t)) = none →
      granularSearch data target l best = (l.foldl (stepBest data target) best).2 := by
  induction l with
  | nil => intro best _; rfl
  | cons t rest ih =>
    intro best hf
    have hacc : ¬ acceptedCandidate data target t := by
      intro hacc
      rw [List.find?_cons_of_pos rest (by simpa using hacc)] at hf
      exact Option.some_ne_none t hf
    have hf2 : rest.find? (fun t2 => decide (acceptedCandidate data target t2)) = none := by
      rwa [List.find?_cons_of_neg rest (by simpa using hacc)] at hf
    simp only [granularSearch, List.foldl_cons]
    rw [if_neg hacc]
    exact ih (stepBest data target best t) hf2

/-- The best-seen fold tracks the argmin of the rate distance over the
candidate list: the strict comparison of the update keeps the earlier
candidate on ties, exactly as the argmin accumulator does. -/
theorem foldl_stepBest_argmin (data : List ℚ) (target : ℚ) (l : List ℚ) :
    ∀ (best : Option ℚ × List ℕ) (o : Option ℚ),
      ((best.1 = none ∧ o = none) ∨
        ∃ t, o = some t ∧ best.1 = some (candDiff data target t) ∧
          best.2 = detectAnomaliesHeap data t) →
      ((l.foldl (stepBest data target) best).1 = none ∧
          l.foldl (List.argAux fun b c => candDiff data target b < candDiff data target c) o =
            none) ∨
        ∃ t,
          l.foldl (List.argAux fun b c => candDiff data target b < candDiff data target c) o =
              some t ∧
            (l.foldl (stepBest data target) best).1 = some (candDiff data target t) ∧
            (l.foldl (stepBest data target) best).2 = detectAnomaliesHeap data t := by
  induction l with
  | nil => intro best o h; simpa using h
  | cons t rest ih =>
    intro best o h
    rw [List.foldl_cons, List.foldl_cons]
    apply ih
    rcases h with ⟨hb, ho⟩ | ⟨t0, ho, hb1, hb2⟩
    · subst ho
      right
      refine ⟨t, rfl, ?_, ?_⟩
      · simp [stepBest, hb, betterDiff]
      · simp [stepBest, hb, betterDiff]
    · subst ho
      by_cases hlt : candDiff data target t < candDiff data target t0
      · right
        refine ⟨t, ?_, ?_, ?_⟩
        · show (if candDiff data target t < candDiff data target t0 then some t else some t0) =
            some t
          rw [if_pos hlt]
        · simp [stepBest, hb1, betterDiff, hlt]
        · simp [stepBest, hb1, betterDiff, hlt]
      · right
        refine ⟨t0, ?_, ?_, ?_⟩
        · show (if candDiff data target t < candDiff data target t0 then some t else some t0) =
            some t0
          rw [if_neg hlt]
        · simp [stepBest, hb1, betterDiff, hlt]
        · simp [stepBest, hb1, betterDiff, hlt, hb2]

/-- C3: on non-empty data, the calibrator evaluates the fixed descending
candidate list in order; if some candidate is accepted (its rate lies within
0.8 to 1.2 times the target), the result is the label set of the first such
candidate; if none is accepted, the result is the label set of the candidate
whose rate distance to the target is smallest, ties resolved toward the
earlier (higher) threshold, as the argmin over the list. -/
theorem calibrator_first_accepted_else_closest (data : List ℚ) (target : ℚ)
    (hd : data ≠ []) :
    detectAnomaliesHeapGranular data target =
      match granularThresholds.find? (fun t => decide (acceptedCandidate data target t)) with
      | some t => detectAnomaliesHeap data t
      | none =>
        (List.argmin (fun t => candDiff data target t) granularThresholds).elim []
          (detectAnomaliesHeap data) := by
  unfold detectAnomaliesHeapGranular
  rw [if_neg hd]
  cases hf : granularThresholds.find? (fun t => decide (acceptedCandidate data target t)) with
  | some t =>
    rw [granularSearch_find_some data target granularThresholds (none, []) t hf
      (fun d hd2 => absurd hd2 (by simp))]
  | none =>
    rw [granularSearch_find_none data target granularThresholds (none, []) hf]
    have hfold := foldl_stepBest_argmin data target granularThresholds (none, []) none
      (Or.inl ⟨rfl, rfl⟩)
    have hargmin : List.argmin (fun t => candDiff data target t) granularThresholds =
        granularThresholds.foldl
          (List.argAux fun b c => candDiff data target b < candDiff data target c) none := rfl
    rcases hfold with ⟨h1, h2⟩ | ⟨t, ho, hb1, hb2⟩
    · exfalso
      rw [← hargmin] at h2
      have hne : granularThresholds ≠ [] := by decide
      exact hne (List.argmin_eq_none.mp h2)
    · rw [hb2]
      rw [← hargmin] at ho
      rw [ho]
      rfl

/-- Witness for C3 at the one-point series [1] with target rate 1/20: no
candidate is accepted there (every rate is 0), so the result is the
argmin-selected label set. -/
theorem calibrator_first_accepted_else_closest_witness :
    (([1] : List ℚ) ≠ []) ∧
      detectAnomaliesHeapGranular [1] (1 / 20) =
        match granularThresholds.find? (fun t => decide (acceptedCandidate [1] (1 / 20) t)) with
        | some t => detectAnomaliesHeap [1] t
        | none =>
          (List.argmin (fun t => candDiff [1] (1 / 20) t) granularThresholds).elim []
            (detectAnomaliesHeap [1]) :=
  ⟨by decide, calibrator_first_accepted_else_closest [1] (1 / 20) (by decide)⟩

end StockAnomaly
